import Mathlib

/-!
Shallow embedding of the `algonaut-sgx` account / multisig core
(`algonaut_transaction/src/account.rs`) and proofs of the specification
claims about it.

Bytes are modelled as `List Nat` (each entry a byte value).  External
cryptographic collaborators (`ring` Ed25519 signing, `sha2` digests, the
`data_encoding` base-32 codec, the msgpack canonical encoding) are not part
of the source core; where the core only relies on them being deterministic
functions they are modelled as such, each marked in its doc comment.
-/

/-- An Ed25519 public key (32 raw bytes in the source). -/
structure Ed25519PublicKey where
  bytes : List Nat
deriving DecidableEq, Repr

/-- An address: the raw 32-byte Ed25519 public key. -/
structure Address where
  bytes : List Nat
deriving DecidableEq, Repr

/-- One Ed25519 signature (64 bytes in the source). -/
structure Signature where
  bytes : List Nat
deriving DecidableEq, Repr

/-- One member's slot of a multisig: the member key and an optional signature. -/
structure MultisigSubsig where
  key : Ed25519PublicKey
  sig : Option Signature
deriving DecidableEq, Repr

/-- An aggregated group signature: version, threshold and the ordered subsig slots. -/
structure MultisigSignature where
  version : Nat
  threshold : Nat
  subsigs : List MultisigSubsig
deriving DecidableEq, Repr

/-- A group signing policy: version, threshold and the ordered member keys. -/
structure MultisigAddress where
  version : Nat
  threshold : Nat
  public_keys : List Ed25519PublicKey
deriving DecidableEq, Repr

/-- A signed program authorization: program bytes plus one of the signature forms. -/
structure LogicSignature where
  logic : List Nat
  sig : Option Signature
  msig : Option MultisigSignature
deriving DecidableEq, Repr

/-- Modelled from the spec: the transaction payload lives in
`algonaut_transaction/src/transaction.rs`, which is not part of the sources
under review; the core requires only the declared sender and a canonical byte
encoding that may fail.  `canonicalBytes = none` models an encoding failure. -/
structure Transaction where
  sender : Address
  canonicalBytes : Option (List Nat)
deriving DecidableEq, Repr

/-- A transaction together with its proof of authorization. -/
structure SignedTransaction where
  transaction : Transaction
  sig : Option Signature
  logicsig : Option LogicSignature
  multisig : Option MultisigSignature
  transaction_id : String
deriving DecidableEq, Repr

/-- The error kinds surfaced by the account / multisig core. -/
inductive ApiError where
  | InvalidSecretKeyInMultisig
  | InvalidSenderInMultisig
  | InsufficientTransactions
  | InvalidNumberOfSubsignatures
  | InvalidPublicKeyInMultisig
  | MismatchingSignatures
deriving DecidableEq, Repr

/-- The error type returned by the fallible operations (`AlgorandError` in the
source); `encoding` stands for a canonical-encoding failure. -/
inductive AlgorandError where
  | api (e : ApiError)
  | encoding
deriving DecidableEq, Repr

/-- Result of a fallible operation of the core.  `panicked` models a Rust
panic (an `unwrap` on `None`), which is a distinct observable outcome. -/
inductive Outcome (α : Type) where
  | ok (val : α)
  | err (e : AlgorandError)
  | panicked
deriving DecidableEq, Repr

/-- Modelled from the spec: deterministic Ed25519 public-key derivation from a
32-byte seed (the `ring` crate, an external collaborator); the core relies only
on the address being a pure function of the seed. -/
def ed25519PublicKeyOfSeed (seed : List Nat) : List Nat :=
  let h : Nat := seed.foldl (fun acc b => (acc * 131 + b + 1) % (2 ^ 256)) 17
  (List.range 32).map (fun i => h / (2 ^ (8 * i)) % 256)

/-- Modelled from the spec: deterministic Ed25519 signing over exactly the
given bytes (the `ring` crate, an external collaborator), already stripped to
its 64 significant bytes as the source does. -/
def ed25519Sign (seed msg : List Nat) : List Nat :=
  let h : Nat := (seed ++ 255 :: msg).foldl (fun acc b => (acc * 257 + b + 3) % (2 ^ 512)) 7
  (List.range 64).map (fun i => h / (2 ^ (8 * i)) % 256)

/-- Modelled from the spec: the 256-bit truncation of a 512-bit hash
(`sha2::Sha512Trunc256`, the source's `ChecksumAlg`, an external crate);
the core relies only on it being a deterministic 32-byte digest of the input. -/
def sha512Trunc256Digest (bs : List Nat) : List Nat :=
  let h : Nat := bs.foldl (fun acc b => (acc * 251 + b + 11) % (2 ^ 256)) (bs.length % 2 ^ 256)
  (List.range 32).map (fun i => h / (2 ^ (8 * i)) % 256)

/-- The RFC 4648 base-32 alphabet. -/
def base32Alphabet : List Char := "ABCDEFGHIJKLMNOPQRSTUVWXYZ234567".toList

/-- The bits of one byte, most significant first. -/
def byteBits (b : Nat) : List Bool :=
  [b.testBit 7, b.testBit 6, b.testBit 5, b.testBit 4,
   b.testBit 3, b.testBit 2, b.testBit 1, b.testBit 0]

/-- The value of a group of up to five bits, most significant first, the group
zero-padded on the right to five bits as RFC 4648 prescribes. -/
def quintetValue (g : List Bool) : Nat :=
  (g ++ List.replicate (5 - g.length) false).foldl (fun acc b => 2 * acc + (if b then 1 else 0)) 0

/-- Split a bit string into consecutive groups of five (the last group may be
shorter). -/
def quintets : List Bool → List (List Bool)
  | [] => []
  | b :: rest => ((b :: rest).take 5) :: quintets (rest.drop 4)
termination_by l => l.length
decreasing_by
  simp only [List.length_drop, List.length_cons]
  omega

/-- RFC 4648 base-32 encoding without padding (the `data_encoding` crate's
`BASE32_NOPAD.encode`, an external collaborator, reproduced bit-exactly). -/
def base32Nopad (bs : List Nat) : String :=
  String.mk ((quintets (bs.flatMap byteBits)).map (fun g => base32Alphabet.getD (quintetValue g) 'A'))

/-- A signing identity; the address and key pair of the source's `Account` are
pure functions of the seed (`Account::from_seed`). -/
structure Account where
  seed : List Nat
deriving DecidableEq, Repr

/-- `Account::address`: the account's public-key address. -/
def Account.address (a : Account) : Address :=
  ⟨ed25519PublicKeyOfSeed a.seed⟩

/-- `Account::sign`: raw Ed25519 signature over exactly the given bytes. -/
def Account.sign (a : Account) (bytes : List Nat) : Signature :=
  ⟨ed25519Sign a.seed bytes⟩

/-- The account's public key as used for multisig membership tests
(`Ed25519PublicKey(self.address.0)` in the source). -/
def Account.publicKey (a : Account) : Ed25519PublicKey :=
  ⟨a.address.bytes⟩

/-- `Account::sign_program`: sign the ASCII tag `"Program"` concatenated
directly with the program bytes. -/
def Account.sign_program (a : Account) (bytes : List Nat) : Signature :=
  a.sign (("Program".toList.map Char.toNat) ++ bytes)

/-- Modelled from the spec: the policy-derived address of a `MultisigAddress`
(`algonaut_core`, not part of the sources under review); the core relies only
on it being a deterministic pure function of the policy. -/
def MultisigAddress.address (ma : MultisigAddress) : Address :=
  ⟨sha512Trunc256Digest (("MultisigAddr".toList.map Char.toNat)
      ++ ma.version :: ma.threshold :: ma.public_keys.flatMap (fun k => k.bytes))⟩

/-- Modelled from the spec: `Transaction::bytes_to_sign`, the canonical byte
encoding consumed (not produced) by the core; it is deterministic and may fail. -/
def Transaction.bytes_to_sign (t : Transaction) : Outcome (List Nat) :=
  match t.canonicalBytes with
  | some bs => .ok bs
  | none => .err .encoding

/-- `Account::sign_transaction`: sign the canonical transaction bytes and
derive the transaction id from a second canonical encoding of the same
transaction, as the source does with its two `bytes_to_sign` calls. -/
def Account.sign_transaction (a : Account) (transaction : Transaction) :
    Outcome SignedTransaction :=
  match transaction.bytes_to_sign with
  | .ok transaction_bytes =>
    let signature := a.sign transaction_bytes
    match transaction.bytes_to_sign with
    | .ok bytes2 =>
      .ok { transaction := transaction
            sig := some signature
            logicsig := none
            multisig := none
            transaction_id := base32Nopad (sha512Trunc256Digest bytes2) }
    | .err e => .err e
    | .panicked => .panicked
  | .err e => .err e
  | .panicked => .panicked

/-- `Account::sign_logic_msig`: membership-checked fresh multisig over the
program signature, preserving the policy's member order. -/
def Account.sign_logic_msig (a : Account) (lsig : LogicSignature)
    (ma : MultisigAddress) : Outcome LogicSignature :=
  let my_public_key := a.publicKey
  if my_public_key ∉ ma.public_keys then
    .err (.api .InvalidSecretKeyInMultisig)
  else
    let sig := a.sign_program lsig.logic
    let subsigs : List MultisigSubsig := ma.public_keys.map (fun key =>
      if key = my_public_key then ⟨key, some sig⟩ else ⟨key, none⟩)
    .ok { lsig with msig := some ⟨ma.version, ma.threshold, subsigs⟩ }

/-- `Account::sign_multisig_transaction`: sender check, membership check, then
the single-signer signature repackaged at the caller's slot. -/
def Account.sign_multisig_transaction (a : Account) (ma : MultisigAddress)
    (transaction : Transaction) : Outcome SignedTransaction :=
  if ma.address ≠ transaction.sender then
    .err (.api .InvalidSenderInMultisig)
  else
    let my_public_key := a.publicKey
    if my_public_key ∉ ma.public_keys then
      .err (.api .InvalidSecretKeyInMultisig)
    else
      match a.sign_transaction transaction with
      | .ok signed_transaction =>
        let subsigs : List MultisigSubsig := ma.public_keys.map (fun key =>
          if key = my_public_key then ⟨key, signed_transaction.sig⟩ else ⟨key, none⟩)
        .ok { multisig := some ⟨ma.version, ma.threshold, subsigs⟩
              sig := none
              logicsig := none
              transaction := transaction
              transaction_id := signed_transaction.transaction_id }
      | .err e => .err e
      | .panicked => .panicked

/-- The inner slot walk of `merge_multisig_transactions`: zip the accumulator's
subsigs with the incoming ones, check keys, and merge the signatures exactly as
the source loop does (the zip truncates at the shorter list, as in Rust). -/
def mergeSubsigs : List MultisigSubsig → List MultisigSubsig →
    Except ApiError (List MultisigSubsig)
  | m :: ms, s :: ss =>
    if s.key ≠ m.key then
      .error .InvalidPublicKeyInMultisig
    else if m.sig = none then
      match mergeSubsigs ms ss with
      | .ok rest => .ok ({ m with sig := s.sig } :: rest)
      | .error e => .error e
    else if m.sig ≠ s.sig ∧ s.sig.isSome then
      .error .MismatchingSignatures
    else
      match mergeSubsigs ms ss with
      | .ok rest => .ok (m :: rest)
      | .error e => .error e
  | _, _ => .ok []

/-- One iteration of the merge loop: unwrap both multisigs (a `None` is a Rust
panic), check the subsig counts, then walk the slots. -/
def mergeStep (merged transaction : SignedTransaction) : Outcome SignedTransaction :=
  match merged.multisig, transaction.multisig with
  | some merged_msig, some msig =>
    if merged_msig.subsigs.length ≠ msig.subsigs.length then
      .err (.api .InvalidNumberOfSubsignatures)
    else
      match mergeSubsigs merged_msig.subsigs msig.subsigs with
      | .ok subsigs =>
        .ok { merged with multisig := some { merged_msig with subsigs := subsigs } }
      | .error e => .err (.api e)
  | _, _ => .panicked

/-- The merge loop over the whole input list (the source's `for` loop, which
also visits the first transaction, the accumulator's own clone). -/
def mergeGo (merged : SignedTransaction) : List SignedTransaction → Outcome SignedTransaction
  | [] => .ok merged
  | t :: ts =>
    match mergeStep merged t with
    | .ok m => mergeGo m ts
    | .err e => .err e
    | .panicked => .panicked

/-- `Account::merge_multisig_transactions`: reject fewer than two inputs, then
fold the merge loop starting from a clone of the first transaction. -/
def merge_multisig_transactions (transactions : List SignedTransaction) :
    Outcome SignedTransaction :=
  if transactions.length < 2 then
    .err (.api .InsufficientTransactions)
  else
    match transactions with
    | [] => .err (.api .InsufficientTransactions)
    | t :: _ => mergeGo t transactions

/-- `Account::append_multisig_transaction`: sign fresh, then merge with the
existing signed transaction. -/
def Account.append_multisig_transaction (a : Account) (ma : MultisigAddress)
    (transaction : SignedTransaction) : Outcome SignedTransaction :=
  match a.sign_multisig_transaction ma transaction.transaction with
  | .ok from_transaction => merge_multisig_transactions [from_transaction, transaction]
  | .err e => .err e
  | .panicked => .panicked






/-! ## Helper notions used to state and prove the merge properties -/

/-- Pointwise slot merge on success: keep the accumulator's key and its
signature when populated, otherwise adopt the incoming one. -/
def combineSubsig (m s : MultisigSubsig) : MultisigSubsig :=
  ⟨m.key, m.sig.or s.sig⟩

/-- The successful result of one slot walk: the pointwise combination. -/
def combineSubsigLists (ms ss : List MultisigSubsig) : List MultisigSubsig :=
  List.zipWith combineSubsig ms ss

/-- The member keys of a multisig, in slot order. -/
def msigKeys (m : MultisigSignature) : List Ed25519PublicKey :=
  m.subsigs.map (fun s => s.key)

/-- The signature stored at slot `i` of a multisig, if any. -/
def slotOf (m : MultisigSignature) (i : Nat) : Option Signature :=
  m.subsigs[i]?.bind (fun s => s.sig)

/-- All populated signatures at slot `i` across a list of signed transactions,
in list order. -/
def slotSigs (ts : List SignedTransaction) (i : Nat) : List Signature :=
  ts.filterMap (fun u => u.multisig.bind (fun m => slotOf m i))

/-- The signed transaction a successful merge step produces. -/
def stepResult (merged : SignedTransaction) (mm tm : MultisigSignature) : SignedTransaction :=
  { merged with multisig := some { mm with subsigs := combineSubsigLists mm.subsigs tm.subsigs } }

/-- All inputs' member-key lists equal the reference key list. -/
abbrev keysMatchAll (ts : List SignedTransaction) (keys0 : List Ed25519PublicKey) : Prop :=
  ∀ u ∈ ts, ∀ mu, u.multisig = some mu → msigKeys mu = keys0

/-- At every slot, any two populated signatures across the inputs agree. -/
abbrev slotsAgree (ts : List SignedTransaction) (n : Nat) : Prop :=
  ∀ i, i < n → ∀ s ∈ slotSigs ts i, ∀ s' ∈ slotSigs ts i, s = s'

/-- A signed transaction with its multisig field replaced. -/
def withMsig (st : SignedTransaction) (m : MultisigSignature) : SignedTransaction :=
  { st with multisig := some m }

/-! ## Concrete sample data used by the witnesses -/

def sampleKeyA : Ed25519PublicKey := ⟨[1]⟩

def sampleKeyB : Ed25519PublicKey := ⟨[2]⟩

def sampleSigA : Signature := ⟨[9]⟩

def sampleSigB : Signature := ⟨[8]⟩

def sampleTxn : Transaction := ⟨⟨[0]⟩, some [1, 2, 3]⟩

def sampleMsig1 : MultisigSignature := ⟨1, 2, [⟨sampleKeyA, some sampleSigA⟩]⟩

def sampleMsig2 : MultisigSignature :=
  ⟨1, 2, [⟨sampleKeyA, some sampleSigA⟩, ⟨sampleKeyB, none⟩]⟩

def cexShort : SignedTransaction := ⟨sampleTxn, none, none, some sampleMsig1, "id"⟩

def cexLong : SignedTransaction := ⟨sampleTxn, none, none, some sampleMsig2, "id"⟩

def cexNone : SignedTransaction := ⟨sampleTxn, none, none, none, "id"⟩

def wtA : SignedTransaction := ⟨sampleTxn, none, none, some sampleMsig2, "id"⟩

def wtB : SignedTransaction :=
  ⟨sampleTxn, none, none, some ⟨1, 2, [⟨sampleKeyA, none⟩, ⟨sampleKeyB, some sampleSigB⟩]⟩, "id"⟩

def wtMerged : SignedTransaction :=
  ⟨sampleTxn, none, none,
    some ⟨1, 2, [⟨sampleKeyA, some sampleSigA⟩, ⟨sampleKeyB, some sampleSigB⟩]⟩, "id"⟩

def sampleAcct : Account := ⟨[5]⟩

def sampleMa : MultisigAddress := ⟨1, 1, [sampleAcct.publicKey]⟩

def sampleMaOther : MultisigAddress := ⟨1, 1, [sampleKeyA]⟩

def sampleTxn2 : Transaction := ⟨sampleMa.address, some [7]⟩

def sampleSt : SignedTransaction := ⟨sampleTxn2, none, none, none, ""⟩

def sampleLsig : LogicSignature := ⟨[1, 2], none, none⟩

lemma slotSigs_append (ts ts' : List SignedTransaction) (i : Nat) :
    slotSigs (ts ++ ts') i = slotSigs ts i ++ slotSigs ts' i :=
  List.filterMap_append _ _ _

lemma slotSigs_singleton (u : SignedTransaction) (i : Nat) :
    slotSigs [u] i = (u.multisig.bind (fun m => slotOf m i)).toList := by
  cases h : u.multisig.bind (fun m => slotOf m i) <;>
    simp [slotSigs, List.filterMap, h]

lemma mem_zip_getElem {α β : Type} {as : List α} {bs : List β} {p : α × β}
    (hp : p ∈ as.zip bs) :
    ∃ i, ∃ ha : i < as.length, ∃ hb : i < bs.length,
      p.1 = as.get ⟨i, ha⟩ ∧ p.2 = bs.get ⟨i, hb⟩ := by
  obtain ⟨i, hi, hpe⟩ := List.getElem_of_mem hp
  have hmin : i < as.length ⊓ bs.length := by
    simpa [List.length_zip] using hi
  have ha : i < as.length := lt_of_lt_of_le hmin inf_le_left
  have hb : i < bs.length := lt_of_lt_of_le hmin inf_le_right
  rw [List.getElem_zip] at hpe
  exact ⟨i, ha, hb, by rw [← hpe, List.get_eq_getElem], by rw [← hpe, List.get_eq_getElem]⟩

lemma mergeSubsigs_nil_left (ss : List MultisigSubsig) :
    mergeSubsigs [] ss = .ok [] := by
  cases ss <;> rfl

lemma mergeSubsigs_nil_right (ms : List MultisigSubsig) :
    mergeSubsigs ms [] = .ok [] := by
  cases ms <;> rfl

lemma mergeSubsigs_cons_eq (m s : MultisigSubsig) (ms ss : List MultisigSubsig) :
    mergeSubsigs (m :: ms) (s :: ss) =
      if s.key ≠ m.key then .error .InvalidPublicKeyInMultisig
      else if m.sig = none then
        match mergeSubsigs ms ss with
        | .ok rest => .ok ({ m with sig := s.sig } :: rest)
        | .error e => .error e
      else if m.sig ≠ s.sig ∧ s.sig.isSome then .error .MismatchingSignatures
      else match mergeSubsigs ms ss with
        | .ok rest => .ok (m :: rest)
        | .error e => .error e := by
  rfl

lemma combineSubsigLists_cons (m s : MultisigSubsig) (ms ss : List MultisigSubsig) :
    combineSubsigLists (m :: ms) (s :: ss) =
      combineSubsig m s :: combineSubsigLists ms ss := rfl

lemma combineSubsig_of_some {m s : MultisigSubsig} {x : Signature} (h : m.sig = some x) :
    combineSubsig m s = m := by
  cases m with
  | mk k sg => cases sg <;> simp_all [combineSubsig, Option.or]

lemma mergeSubsigs_ok_iff (ms : List MultisigSubsig) : ∀ (ss out : List MultisigSubsig),
    mergeSubsigs ms ss = Except.ok out ↔
      ((∀ p ∈ ms.zip ss, p.2.key = p.1.key ∧
          (p.1.sig = none ∨ p.2.sig = none ∨ p.1.sig = p.2.sig)) ∧
        out = combineSubsigLists ms ss) := by
  induction ms with
  | nil =>
    intro ss out
    simp [mergeSubsigs_nil_left, combineSubsigLists, eq_comm]
  | cons m ms ih =>
    intro ss out
    cases ss with
    | nil =>
      simp [mergeSubsigs_nil_right, combineSubsigLists, eq_comm]
    | cons s ss =>
      rw [mergeSubsigs_cons_eq, combineSubsigLists_cons]
      rcases eq_or_ne s.key m.key with hk | hk
      · rw [if_neg (by simp [hk])]
        rcases hms : m.sig with _ | x
        · rw [if_pos rfl]
          cases hrec : mergeSubsigs ms ss with
          | ok rest =>
            have htail := (ih ss rest).mp hrec
            simp only [Except.ok.injEq]
            constructor
            · rintro rfl
              refine ⟨?_, ?_⟩
              · intro p hp
                rcases List.mem_cons.mp hp with rfl | hp'
                · exact ⟨hk, Or.inl hms⟩
                · exact htail.1 p hp'
              · simp [combineSubsig, hms, Option.none_or, htail.2]
            · rintro ⟨_, rfl⟩
              simp [combineSubsig, hms, Option.none_or, htail.2]
          | error e =>
            simp only [reduceCtorEq, false_iff, not_and]
            intro hconds
            have : mergeSubsigs ms ss = Except.ok (combineSubsigLists ms ss) :=
              (ih ss (combineSubsigLists ms ss)).mpr
                ⟨fun p hp => hconds p (List.mem_cons_of_mem _ hp), rfl⟩
            rw [hrec] at this
            exact absurd this (by simp)
        · rw [if_neg (by simp)]
          by_cases hmm : m.sig ≠ s.sig ∧ s.sig.isSome
          · rw [hms] at hmm
            rw [if_pos hmm]
            simp only [reduceCtorEq, false_iff, not_and]
            intro hconds
            have hhead := hconds (m, s) (List.mem_cons_self _ _)
            rcases hhead.2 with h1 | h2 | h3
            · rw [hms] at h1; exact absurd h1 (by simp)
            · rw [h2] at hmm; exact absurd hmm.2 (by simp)
            · exact absurd h3 (by rw [hms]; exact hmm.1)
          · rw [hms] at hmm
            rw [if_neg hmm]
            have hcompat : m.sig = none ∨ s.sig = none ∨ m.sig = s.sig := by
              rcases Decidable.not_and_iff_or_not.mp hmm with h | h
              · right; right; rw [hms]; exact not_not.mp h
              · right; left
                cases hss : s.sig with
                | none => rfl
                | some y => rw [hss] at h; exact absurd rfl h
            cases hrec : mergeSubsigs ms ss with
            | ok rest =>
              have htail := (ih ss rest).mp hrec
              have hcm : combineSubsig m s = m := combineSubsig_of_some hms
              simp only [Except.ok.injEq]
              constructor
              · rintro rfl
                refine ⟨?_, ?_⟩
                · intro p hp
                  rcases List.mem_cons.mp hp with rfl | hp'
                  · exact ⟨hk, hcompat⟩
                  · exact htail.1 p hp'
                · rw [hcm, htail.2]
              · rintro ⟨_, rfl⟩
                rw [hcm, htail.2]
            | error e =>
              simp only [reduceCtorEq, false_iff, not_and]
              intro hconds
              have : mergeSubsigs ms ss = Except.ok (combineSubsigLists ms ss) :=
                (ih ss (combineSubsigLists ms ss)).mpr
                  ⟨fun p hp => hconds p (List.mem_cons_of_mem _ hp), rfl⟩
              rw [hrec] at this
              exact absurd this (by simp)
      · rw [if_pos (by simp [hk])]
        simp only [reduceCtorEq, false_iff, not_and]
        intro hconds
        exact absurd (hconds (m, s) (List.mem_cons_self _ _)).1 hk

lemma mergeSubsigs_error (ms : List MultisigSubsig) : ∀ (ss : List MultisigSubsig) (e : ApiError),
    mergeSubsigs ms ss = Except.error e →
      (e = ApiError.InvalidPublicKeyInMultisig ∧ ∃ p ∈ ms.zip ss, p.2.key ≠ p.1.key) ∨
      (e = ApiError.MismatchingSignatures ∧
        ∃ p ∈ ms.zip ss, p.1.sig ≠ none ∧ p.2.sig ≠ none ∧ p.1.sig ≠ p.2.sig) := by
  induction ms with
  | nil =>
    intro ss e h
    rw [mergeSubsigs_nil_left] at h
    exact absurd h (by simp)
  | cons m ms ih =>
    intro ss e h
    cases ss with
    | nil =>
      rw [mergeSubsigs_nil_right] at h
      exact absurd h (by simp)
    | cons s ss =>
      rw [mergeSubsigs_cons_eq] at h
      rcases eq_or_ne s.key m.key with hk | hk
      · rw [if_neg (by simp [hk])] at h
        rcases hms : m.sig with _ | x
        · rw [if_pos hms] at h
          cases hrec : mergeSubsigs ms ss with
          | ok rest => rw [hrec] at h; exact absurd h (by simp)
          | error e' =>
            rw [hrec] at h
            have he : e = e' := by
              have := h
              simp at this
              exact this.symm
            rcases ih ss e' hrec with ⟨he', p, hp, hv⟩ | ⟨he', p, hp, hv⟩
            · exact Or.inl ⟨he ▸ he', p, List.mem_cons_of_mem _ hp, hv⟩
            · exact Or.inr ⟨he ▸ he', p, List.mem_cons_of_mem _ hp, hv⟩
        · rw [if_neg (by simp [hms])] at h
          by_cases hmm : m.sig ≠ s.sig ∧ s.sig.isSome
          · rw [if_pos hmm] at h
            have he : e = ApiError.MismatchingSignatures := by
              simp at h
              exact h.symm
            refine Or.inr ⟨he, (m, s), List.mem_cons_self _ _, ?_, ?_, ?_⟩
            · simp [hms]
            · cases hss : s.sig with
              | none =>
                have := hmm.2
                rw [hss] at this
                exact absurd this (by simp)
              | some y => simp [hss]
            · exact hmm.1
          · rw [if_neg hmm] at h
            cases hrec : mergeSubsigs ms ss with
            | ok rest => rw [hrec] at h; exact absurd h (by simp)
            | error e' =>
              rw [hrec] at h
              have he : e = e' := by
                simp at h
                exact h.symm
              rcases ih ss e' hrec with ⟨he', p, hp, hv⟩ | ⟨he', p, hp, hv⟩
              · exact Or.inl ⟨he ▸ he', p, List.mem_cons_of_mem _ hp, hv⟩
              · exact Or.inr ⟨he ▸ he', p, List.mem_cons_of_mem _ hp, hv⟩
      · rw [if_pos (by simp [hk])] at h
        have he : e = ApiError.InvalidPublicKeyInMultisig := by
          simp at h
          exact h.symm
        exact Or.inl ⟨he, (m, s), List.mem_cons_self _ _, hk⟩

lemma combineSubsigLists_self (l : List MultisigSubsig) :
    combineSubsigLists l l = l := by
  induction l with
  | nil => rfl
  | cons m l ih =>
    rw [combineSubsigLists_cons, ih]
    cases m with
    | mk k sg => cases sg <;> simp [combineSubsig, Option.or]

lemma combineSubsigLists_length {ms ss : List MultisigSubsig}
    (h : ss.length = ms.length) :
    (combineSubsigLists ms ss).length = ms.length := by
  simp [combineSubsigLists, List.length_zipWith, h]

lemma combineSubsigLists_keys {ms ss : List MultisigSubsig}
    (h : ss.length = ms.length) :
    (combineSubsigLists ms ss).map (fun s => s.key) = ms.map (fun s => s.key) := by
  induction ms generalizing ss with
  | nil => simp [combineSubsigLists]
  | cons m ms ih =>
    cases ss with
    | nil => exact absurd h (by simp)
    | cons s ss =>
      rw [combineSubsigLists_cons]
      simp only [List.map_cons]
      rw [ih (by simpa using h)]
      rfl

lemma combineSubsigLists_slot {ms ss : List MultisigSubsig}
    (h : ss.length = ms.length) (i : Nat) (hi : i < ms.length) :
    (combineSubsigLists ms ss)[i]?.bind (fun s => s.sig) =
      (ms[i]?.bind (fun s => s.sig)).or (ss[i]?.bind (fun s => s.sig)) := by
  have hi' : i < ss.length := by omega
  have hiz : i < (combineSubsigLists ms ss).length := by
    rw [combineSubsigLists_length h]; exact hi
  rw [List.getElem?_eq_getElem hi, List.getElem?_eq_getElem hi',
    List.getElem?_eq_getElem hiz]
  have : (combineSubsigLists ms ss)[i] = combineSubsig ms[i] ss[i] := by
    simp [combineSubsigLists, List.getElem_zipWith]
  rw [this]
  rfl

lemma keys_pointwise {as bs : List MultisigSubsig}
    (hkeys : bs.map (fun s => s.key) = as.map (fun s => s.key)) :
    ∀ p ∈ as.zip bs, p.2.key = p.1.key := by
  intro p hp
  obtain ⟨i, ha, hb, h1, h2⟩ := mem_zip_getElem hp
  have hma : i < (as.map (fun s => s.key)).length := by simpa using ha
  have hmb : i < (bs.map (fun s => s.key)).length := by simpa using hb
  have := congrArg (fun l => l[i]?) hkeys
  simp only [List.getElem?_eq_getElem hma, List.getElem?_eq_getElem hmb,
    List.getElem_map] at this
  rw [h1, h2]
  simp only [List.get_eq_getElem]
  exact Option.some_injective _ this

lemma zip_getElem_mem {α β : Type} (as : List α) (bs : List β) (i : Nat)
    (ha : i < as.length) (hb : i < bs.length) :
    (as.get ⟨i, ha⟩, bs.get ⟨i, hb⟩) ∈ as.zip bs := by
  have hz : i < (as.zip bs).length := by
    rw [List.length_zip]
    exact lt_min ha hb
  have hmem := List.getElem_mem hz
  rw [List.getElem_zip] at hmem
  simpa using hmem

lemma keys_of_pointwise {as bs : List MultisigSubsig}
    (hlen : bs.length = as.length)
    (hpt : ∀ p ∈ as.zip bs, p.2.key = p.1.key) :
    bs.map (fun s => s.key) = as.map (fun s => s.key) := by
  apply List.ext_getElem (by simp [hlen])
  intro i h1 h2
  have ha : i < as.length := by simpa using h2
  have hb : i < bs.length := by simpa using h1
  simp only [List.getElem_map]
  exact hpt (as.get ⟨i, ha⟩, bs.get ⟨i, hb⟩) (zip_getElem_mem as bs i ha hb)

lemma slotSigs_cons (u : SignedTransaction) (ts : List SignedTransaction) (i : Nat) :
    slotSigs (u :: ts) i =
      (u.multisig.bind (fun m => slotOf m i)).toList ++ slotSigs ts i := by
  cases h : u.multisig.bind (fun m => slotOf m i) <;>
    simp [slotSigs, List.filterMap_cons, h]

lemma head_toList {α : Type} (o : Option α) : o.toList.head? = o := by
  cases o <;> rfl

lemma slotOf_eq_getElem {m : MultisigSignature} {i : Nat} (hi : i < m.subsigs.length) :
    slotOf m i = (m.subsigs.get ⟨i, hi⟩).sig := by
  simp [slotOf, List.getElem?_eq_getElem hi]

lemma mergeStep_of_none_left {merged t : SignedTransaction}
    (h : merged.multisig = none) : mergeStep merged t = .panicked := by
  simp [mergeStep, h]

lemma mergeStep_of_none_right {merged t : SignedTransaction}
    (h : t.multisig = none) : mergeStep merged t = .panicked := by
  cases hm : merged.multisig <;> simp [mergeStep, hm, h]

lemma mergeStep_count_mismatch {merged t : SignedTransaction}
    {mm tm : MultisigSignature} (hm : merged.multisig = some mm)
    (ht : t.multisig = some tm) (h : mm.subsigs.length ≠ tm.subsigs.length) :
    mergeStep merged t = .err (.api .InvalidNumberOfSubsignatures) := by
  simp [mergeStep, hm, ht, h]


lemma mergeStep_ok_iff {merged t : SignedTransaction} {mm tm : MultisigSignature}
    (hm : merged.multisig = some mm) (ht : t.multisig = some tm)
    (hlen : tm.subsigs.length = mm.subsigs.length) (m' : SignedTransaction) :
    mergeStep merged t = .ok m' ↔
      ((∀ p ∈ mm.subsigs.zip tm.subsigs, p.2.key = p.1.key ∧
          (p.1.sig = none ∨ p.2.sig = none ∨ p.1.sig = p.2.sig)) ∧
        m' = stepResult merged mm tm) := by
  have hne : ¬ mm.subsigs.length ≠ tm.subsigs.length := by omega
  simp only [mergeStep, hm, ht, if_neg hne]
  cases hrec : mergeSubsigs mm.subsigs tm.subsigs with
  | ok out =>
    have hout := (mergeSubsigs_ok_iff mm.subsigs tm.subsigs out).mp hrec
    simp only [Outcome.ok.injEq]
    constructor
    · rintro rfl
      exact ⟨hout.1, by rw [stepResult, hout.2]⟩
    · rintro ⟨_, rfl⟩
      rw [stepResult, hout.2]
  | error e =>
    simp only [reduceCtorEq, false_iff, not_and]
    intro hconds
    have : mergeSubsigs mm.subsigs tm.subsigs =
        Except.ok (combineSubsigLists mm.subsigs tm.subsigs) :=
      (mergeSubsigs_ok_iff mm.subsigs tm.subsigs _).mpr ⟨hconds, rfl⟩
    rw [hrec] at this
    exact absurd this (by simp)

lemma mergeStep_err {merged t : SignedTransaction} {mm tm : MultisigSignature}
    {e : AlgorandError} (hm : merged.multisig = some mm) (ht : t.multisig = some tm)
    (hlen : tm.subsigs.length = mm.subsigs.length)
    (h : mergeStep merged t = .err e) :
    ∃ e0, e = .api e0 ∧ mergeSubsigs mm.subsigs tm.subsigs = .error e0 := by
  have hne : ¬ mm.subsigs.length ≠ tm.subsigs.length := by omega
  simp only [mergeStep, hm, ht, if_neg hne] at h
  cases hrec : mergeSubsigs mm.subsigs tm.subsigs with
  | ok out => rw [hrec] at h; exact absurd h (by simp)
  | error e0 =>
    rw [hrec] at h
    simp only [Outcome.err.injEq] at h
    exact ⟨e0, h.symm, rfl⟩

lemma mergeStep_not_panicked {merged t : SignedTransaction} {mm tm : MultisigSignature}
    (hm : merged.multisig = some mm) (ht : t.multisig = some tm) :
    mergeStep merged t ≠ .panicked := by
  simp only [mergeStep, hm, ht]
  by_cases h : mm.subsigs.length ≠ tm.subsigs.length
  · simp [h]
  · simp only [if_neg h]
    cases mergeSubsigs mm.subsigs tm.subsigs <;> simp

lemma mergeStep_self {t : SignedTransaction} {m : MultisigSignature}
    (h : t.multisig = some m) : mergeStep t t = .ok t := by
  rw [mergeStep_ok_iff h h rfl]
  refine ⟨?_, ?_⟩
  · intro p hp
    obtain ⟨i, ha, hb, h1, h2⟩ := mem_zip_getElem hp
    have : p.1 = p.2 := by rw [h1, h2]
    rw [this]
    exact ⟨rfl, Or.inr (Or.inr rfl)⟩
  · rw [stepResult, combineSubsigLists_self]
    cases t with
    | mk tx sg ls msg tid =>
      simp only at h
      subst h
      rfl

lemma mergeStep_ok_shape {merged t m' : SignedTransaction}
    (h : mergeStep merged t = .ok m') :
    ∃ mm tm, merged.multisig = some mm ∧ t.multisig = some tm ∧
      tm.subsigs.length = mm.subsigs.length ∧
      m'.transaction = merged.transaction ∧ m'.sig = merged.sig ∧
      m'.logicsig = merged.logicsig ∧ m'.transaction_id = merged.transaction_id ∧
      ∃ mm', m'.multisig = some mm' ∧ mm'.version = mm.version ∧
        mm'.threshold = mm.threshold ∧
        mm'.subsigs = combineSubsigLists mm.subsigs tm.subsigs ∧
        mm'.subsigs.length = mm.subsigs.length ∧ msigKeys mm' = msigKeys mm := by
  cases hm : merged.multisig with
  | none => rw [mergeStep_of_none_left hm] at h; exact absurd h (by simp)
  | some mm =>
    cases ht : t.multisig with
    | none => rw [mergeStep_of_none_right ht] at h; exact absurd h (by simp)
    | some tm =>
      by_cases hlen : mm.subsigs.length ≠ tm.subsigs.length
      · rw [mergeStep_count_mismatch hm ht hlen] at h
        exact absurd h (by simp)
      · have hlen' : tm.subsigs.length = mm.subsigs.length := by omega
        have hsp := (mergeStep_ok_iff hm ht hlen' m').mp h
        rw [hsp.2]
        refine ⟨mm, tm, rfl, rfl, hlen', rfl, rfl, rfl, rfl, ?_⟩
        refine ⟨_, rfl, rfl, rfl, rfl, ?_, ?_⟩
        · exact combineSubsigLists_length hlen'
        · simp only [msigKeys, stepResult]
          exact combineSubsigLists_keys hlen'



lemma slotSigs_singleton_head (u : SignedTransaction) {mu : MultisigSignature}
    (hmu : u.multisig = some mu) (i : Nat) :
    (slotSigs [u] i).head? = slotOf mu i := by
  rw [slotSigs_cons]
  simp only [slotSigs, List.filterMap_nil, List.append_nil]
  rw [head_toList, hmu]
  rfl

lemma mem_slotSigs_singleton {u : SignedTransaction} {mu : MultisigSignature}
    (hmu : u.multisig = some mu) {i : Nat} {s : Signature}
    (hs : s ∈ slotSigs [u] i) : slotOf mu i = some s := by
  rw [slotSigs_cons] at hs
  simp only [slotSigs, List.filterMap_nil, List.append_nil, hmu, Option.some_bind] at hs
  cases ho : slotOf mu i with
  | none => rw [ho] at hs; simp [Option.toList] at hs
  | some x =>
    rw [ho] at hs
    simp [Option.toList] at hs
    rw [hs]

lemma step_preserves {merged u merged' : SignedTransaction} {mc mu : MultisigSignature}
    {keys0 : List Ed25519PublicKey} {pre : List SignedTransaction}
    (hmc : merged.multisig = some mc) (hkeys : msigKeys mc = keys0)
    (hn : mc.subsigs.length = keys0.length)
    (hinv : ∀ i, i < keys0.length → slotOf mc i = (slotSigs pre i).head?)
    (hagree : slotsAgree pre keys0.length)
    (hmu : u.multisig = some mu) (hmulen : mu.subsigs.length = keys0.length)
    (hstep : mergeStep merged u = .ok merged') :
    msigKeys mu = keys0 ∧
    ∃ mc', merged' = { merged with multisig := some mc' } ∧
      merged'.multisig = some mc' ∧
      mc'.version = mc.version ∧ mc'.threshold = mc.threshold ∧
      msigKeys mc' = keys0 ∧ mc'.subsigs.length = keys0.length ∧
      (∀ i, i < keys0.length → slotOf mc' i = (slotSigs (pre ++ [u]) i).head?) ∧
      slotsAgree (pre ++ [u]) keys0.length := by
  have hlen' : mu.subsigs.length = mc.subsigs.length := by omega
  have hsp := (mergeStep_ok_iff hmc hmu hlen' merged').mp hstep
  have hconds := hsp.1
  have hmukeys : msigKeys mu = keys0 := by
    have := keys_of_pointwise hlen' (fun p hp => (hconds p hp).1)
    calc msigKeys mu = mc.subsigs.map (fun s => s.key) := this
    _ = keys0 := hkeys
  have hcompat : ∀ i, i < keys0.length →
      slotOf mc i = none ∨ slotOf mu i = none ∨ slotOf mc i = slotOf mu i := by
    intro i hi
    have ha : i < mc.subsigs.length := by omega
    have hb : i < mu.subsigs.length := by omega
    have hp := hconds (mc.subsigs.get ⟨i, ha⟩, mu.subsigs.get ⟨i, hb⟩)
      (zip_getElem_mem mc.subsigs mu.subsigs i ha hb)
    rw [slotOf_eq_getElem ha, slotOf_eq_getElem hb]
    exact hp.2
  refine ⟨hmukeys, ⟨mc.version, mc.threshold, combineSubsigLists mc.subsigs mu.subsigs⟩,
    ?_, ?_, rfl, rfl, ?_, ?_, ?_, ?_⟩
  · rw [hsp.2]; rfl
  · rw [hsp.2]; rfl
  · show (combineSubsigLists mc.subsigs mu.subsigs).map (fun s => s.key) = keys0
    rw [combineSubsigLists_keys hlen']
    exact hkeys
  · show (combineSubsigLists mc.subsigs mu.subsigs).length = keys0.length
    rw [combineSubsigLists_length hlen']
    exact hn
  · intro i hi
    have ha : i < mc.subsigs.length := by omega
    show (combineSubsigLists mc.subsigs mu.subsigs)[i]?.bind (fun s => s.sig) = _
    rw [combineSubsigLists_slot hlen' i ha]
    rw [slotSigs_append, List.head?_append, slotSigs_singleton_head u hmu i]
    have : mc.subsigs[i]?.bind (fun s => s.sig) = slotOf mc i := rfl
    rw [this]
    have : mu.subsigs[i]?.bind (fun s => s.sig) = slotOf mu i := rfl
    rw [this]
    rw [hinv i hi]
  · intro i hi s hs s' hs'
    rw [slotSigs_append] at hs hs'
    have fromU : ∀ x ∈ slotSigs [u] i, slotOf mu i = some x :=
      fun x hx => mem_slotSigs_singleton hmu hx
    have fromPre : ∀ x ∈ slotSigs pre i, slotOf mc i = some x → True := fun _ _ _ => trivial
    rcases List.mem_append.mp hs with hsp1 | hsu1 <;>
      rcases List.mem_append.mp hs' with hsp2 | hsu2
    · exact hagree i hi s hsp1 s' hsp2
    · have hmu' := fromU s' hsu2
      rcases hcompat i hi with hc | hc | hc
      · rw [hinv i hi] at hc
        rw [List.head?_eq_none_iff] at hc
        rw [hc] at hsp1
        exact absurd hsp1 (List.not_mem_nil s)
      · rw [hmu'] at hc
        exact absurd hc (by simp)
      · rw [hinv i hi, hmu'] at hc
        have hs0 := List.mem_of_mem_head? (show s' ∈ (slotSigs pre i).head? by rw [hc]; rfl)
        exact hagree i hi s hsp1 s' hs0
    · have hmu' := fromU s hsu1
      rcases hcompat i hi with hc | hc | hc
      · rw [hinv i hi] at hc
        rw [List.head?_eq_none_iff] at hc
        rw [hc] at hsp2
        exact absurd hsp2 (List.not_mem_nil s')
      · rw [hmu'] at hc
        exact absurd hc (by simp)
      · rw [hinv i hi, hmu'] at hc
        have hs0 := List.mem_of_mem_head? (show s ∈ (slotSigs pre i).head? by rw [hc]; rfl)
        exact hagree i hi s hs0 s' hsp2
    · have h1 := fromU s hsu1
      have h2 := fromU s' hsu2
      rw [h1] at h2
      exact Option.some_injective _ h2


lemma withMsig_self {st : SignedTransaction} {m : MultisigSignature}
    (h : st.multisig = some m) : withMsig st m = st := by
  cases st with
  | mk tx sg ls msg tid =>
    simp only at h
    subst h
    rfl

lemma withMsig_withMsig (st : SignedTransaction) (m m' : MultisigSignature) :
    withMsig (withMsig st m) m' = withMsig st m' := rfl

lemma slotSigs_singleton_mem {u : SignedTransaction} {mu : MultisigSignature}
    (hmu : u.multisig = some mu) {i : Nat} {y : Signature}
    (h : slotOf mu i = some y) : y ∈ slotSigs [u] i := by
  rw [slotSigs_cons]
  simp [slotSigs, hmu, Option.some_bind, h, Option.toList]

lemma slotsAgree_sub {pre todo : List SignedTransaction} {n : Nat}
    (h : slotsAgree (pre ++ todo) n) : slotsAgree pre n := by
  intro i hi s hs s' hs'
  exact h i hi s (by rw [slotSigs_append]; exact List.mem_append_left _ hs)
    s' (by rw [slotSigs_append]; exact List.mem_append_left _ hs')

lemma append_cons_eq (pre todo : List SignedTransaction) (u : SignedTransaction) :
    (pre ++ [u]) ++ todo = pre ++ u :: todo := by
  rw [List.append_assoc]
  rfl

lemma mergeGo_ok_of (todo : List SignedTransaction) :
    ∀ (pre : List SignedTransaction) (merged : SignedTransaction)
      (mc : MultisigSignature) (keys0 : List Ed25519PublicKey),
      merged.multisig = some mc →
      msigKeys mc = keys0 →
      mc.subsigs.length = keys0.length →
      (∀ i, i < keys0.length → slotOf mc i = (slotSigs pre i).head?) →
      slotsAgree (pre ++ todo) keys0.length →
      (∀ u ∈ todo, ∃ mu, u.multisig = some mu ∧ mu.subsigs.length = keys0.length) →
      keysMatchAll todo keys0 →
      ∃ mcf : MultisigSignature,
        mergeGo merged todo = .ok (withMsig merged mcf) ∧
        mcf.version = mc.version ∧ mcf.threshold = mc.threshold ∧
        msigKeys mcf = keys0 ∧ mcf.subsigs.length = keys0.length ∧
        ∀ i, i < keys0.length → slotOf mcf i = (slotSigs (pre ++ todo) i).head? := by
  induction todo with
  | nil =>
    intro pre merged mc keys0 hmc hkeys hn hinv hagree hall hkm
    refine ⟨mc, ?_, rfl, rfl, hkeys, hn, ?_⟩
    · rw [mergeGo, withMsig_self hmc]
    · intro i hi
      rw [List.append_nil]
      exact hinv i hi
  | cons u todo ih =>
    intro pre merged mc keys0 hmc hkeys hn hinv hagree hall hkm
    obtain ⟨mu, hmu, hmulen⟩ := hall u (List.mem_cons_self u todo)
    have hmukeys := hkm u (List.mem_cons_self u todo) mu hmu
    have hlen' : mu.subsigs.length = mc.subsigs.length := by omega
    have hconds : ∀ p ∈ mc.subsigs.zip mu.subsigs, p.2.key = p.1.key ∧
        (p.1.sig = none ∨ p.2.sig = none ∨ p.1.sig = p.2.sig) := by
      intro p hp
      obtain ⟨i, ha, hb, h1, h2⟩ := mem_zip_getElem hp
      refine ⟨keys_pointwise (hmukeys.trans hkeys.symm) p hp, ?_⟩
      have hi : i < keys0.length := by omega
      rw [h1, h2]
      rw [← slotOf_eq_getElem ha, ← slotOf_eq_getElem hb]
      cases hA : slotOf mc i with
      | none => exact Or.inl rfl
      | some z =>
        cases hB : slotOf mu i with
        | none => exact Or.inr (Or.inl rfl)
        | some y =>
          refine Or.inr (Or.inr ?_)
          have hz : z ∈ slotSigs pre i := List.mem_of_mem_head?
            (show z ∈ (slotSigs pre i).head? by rw [← hinv i hi, hA]; rfl)
          have hz' : z ∈ slotSigs (pre ++ u :: todo) i := by
            rw [slotSigs_append]
            exact List.mem_append_left _ hz
          have hy : y ∈ slotSigs [u] i := slotSigs_singleton_mem hmu hB
          have hy' : y ∈ slotSigs (pre ++ u :: todo) i := by
            rw [slotSigs_append]
            refine List.mem_append_right _ ?_
            rw [slotSigs_cons]
            rw [slotSigs_cons] at hy
            simp only [slotSigs, List.filterMap_nil, List.append_nil] at hy
            exact List.mem_append_left _ hy
          rw [hagree i hi z hz' y hy']
    have hstep : mergeStep merged u = .ok (stepResult merged mc mu) :=
      (mergeStep_ok_iff hmc hmu hlen' _).mpr ⟨hconds, rfl⟩
    have hagreePre : slotsAgree pre keys0.length := slotsAgree_sub hagree
    obtain ⟨_, mc', heq, hmc', hv, hth, hk', hn', hinv', hagree'⟩ :=
      step_preserves hmc hkeys hn hinv hagreePre hmu hmulen hstep
    have hagree2 : slotsAgree ((pre ++ [u]) ++ todo) keys0.length := by
      rw [append_cons_eq]
      exact hagree
    obtain ⟨mcf, hgo, hv2, hth2, hk2, hn2, hslots2⟩ :=
      ih (pre ++ [u]) (stepResult merged mc mu) mc' keys0 hmc' hk' hn' hinv' hagree2
        (fun v hv => hall v (List.mem_cons_of_mem _ hv))
        (fun v hv mv hmv => hkm v (List.mem_cons_of_mem _ hv) mv hmv)
    refine ⟨mcf, ?_, hv2.trans hv, hth2.trans hth, hk2, hn2, ?_⟩
    · show mergeGo merged (u :: todo) = _
      rw [mergeGo, hstep]
      show mergeGo (stepResult merged mc mu) todo = _
      rw [hgo]
      have : withMsig (stepResult merged mc mu) mcf = withMsig merged mcf := by
        rw [heq]
        rfl
      rw [this]
    · intro i hi
      rw [← append_cons_eq]
      exact hslots2 i hi

lemma mergeGo_ok_then (todo : List SignedTransaction) :
    ∀ (pre : List SignedTransaction) (merged : SignedTransaction)
      (mc : MultisigSignature) (keys0 : List Ed25519PublicKey) (st : SignedTransaction),
      merged.multisig = some mc →
      msigKeys mc = keys0 →
      mc.subsigs.length = keys0.length →
      (∀ i, i < keys0.length → slotOf mc i = (slotSigs pre i).head?) →
      slotsAgree pre keys0.length →
      (∀ u ∈ todo, ∃ mu, u.multisig = some mu ∧ mu.subsigs.length = keys0.length) →
      mergeGo merged todo = .ok st →
      keysMatchAll todo keys0 ∧ slotsAgree (pre ++ todo) keys0.length := by
  induction todo with
  | nil =>
    intro pre merged mc keys0 st hmc hkeys hn hinv hagree hall hgo
    refine ⟨fun u hu => absurd hu (List.not_mem_nil u), ?_⟩
    rw [List.append_nil]
    exact hagree
  | cons u todo ih =>
    intro pre merged mc keys0 st hmc hkeys hn hinv hagree hall hgo
    obtain ⟨mu, hmu, hmulen⟩ := hall u (List.mem_cons_self u todo)
    rw [mergeGo] at hgo
    cases hstep : mergeStep merged u with
    | err e =>
      rw [hstep] at hgo
      exact absurd (show (Outcome.err e : Outcome SignedTransaction) = .ok st from hgo) (by simp)
    | panicked =>
      rw [hstep] at hgo
      exact absurd (show (Outcome.panicked : Outcome SignedTransaction) = .ok st from hgo) (by simp)
    | ok merged' =>
      rw [hstep] at hgo
      have hgo' : mergeGo merged' todo = .ok st := hgo
      obtain ⟨hmukeys, mc', heq, hmc', hv, hth, hk', hn', hinv', hagree'⟩ :=
        step_preserves hmc hkeys hn hinv hagree hmu hmulen hstep
      have hres := ih (pre ++ [u]) merged' mc' keys0 st hmc' hk' hn' hinv' hagree'
        (fun v hvm => hall v (List.mem_cons_of_mem _ hvm)) hgo'
      refine ⟨?_, ?_⟩
      · intro v hvm mv hmv
        rcases List.mem_cons.mp hvm with rfl | hv'
        · rw [hmv] at hmu
          have : mv = mu := Option.some_injective _ hmu
          rw [this]
          exact hmukeys
        · exact hres.1 v hv' mv hmv
      · rw [← append_cons_eq]
        exact hres.2

lemma mergeGo_no_panic (todo : List SignedTransaction) :
    ∀ (merged : SignedTransaction) (mc : MultisigSignature),
      merged.multisig = some mc →
      (∀ u ∈ todo, ∃ mu, u.multisig = some mu) →
      mergeGo merged todo ≠ .panicked := by
  induction todo with
  | nil =>
    intro merged mc hmc hall
    rw [mergeGo]
    simp
  | cons u todo ih =>
    intro merged mc hmc hall h
    obtain ⟨mu, hmu⟩ := hall u (List.mem_cons_self u todo)
    rw [mergeGo] at h
    cases hstep : mergeStep merged u with
    | ok merged' =>
      rw [hstep] at h
      have h' : mergeGo merged' todo = .panicked := h
      obtain ⟨mm, tm, _, _, _, _, _, _, _, mm', hmm', _⟩ := mergeStep_ok_shape hstep
      exact ih merged' mm' hmm' (fun v hv => hall v (List.mem_cons_of_mem _ hv)) h'
    | err e =>
      rw [hstep] at h
      exact absurd (show (Outcome.err e : Outcome SignedTransaction) = .panicked from h) (by simp)
    | panicked => exact mergeStep_not_panicked hmc hmu hstep

lemma mergeGo_err (todo : List SignedTransaction) :
    ∀ (pre : List SignedTransaction) (merged : SignedTransaction)
      (mc : MultisigSignature) (keys0 : List Ed25519PublicKey) (e : AlgorandError),
      merged.multisig = some mc →
      msigKeys mc = keys0 →
      mc.subsigs.length = keys0.length →
      (∀ i, i < keys0.length → slotOf mc i = (slotSigs pre i).head?) →
      slotsAgree pre keys0.length →
      (∀ u ∈ todo, ∃ mu, u.multisig = some mu ∧ mu.subsigs.length = keys0.length) →
      mergeGo merged todo = .err e →
      (e = .api .InvalidPublicKeyInMultisig ∧ ¬ keysMatchAll todo keys0) ∨
      (e = .api .MismatchingSignatures ∧ ¬ slotsAgree (pre ++ todo) keys0.length) := by
  induction todo with
  | nil =>
    intro pre merged mc keys0 e hmc hkeys hn hinv hagree hall hgo
    rw [mergeGo] at hgo
    exact absurd hgo (by simp)
  | cons u todo ih =>
    intro pre merged mc keys0 e hmc hkeys hn hinv hagree hall hgo
    obtain ⟨mu, hmu, hmulen⟩ := hall u (List.mem_cons_self u todo)
    rw [mergeGo] at hgo
    cases hstep : mergeStep merged u with
    | ok merged' =>
      rw [hstep] at hgo
      have hgo' : mergeGo merged' todo = .err e := hgo
      obtain ⟨hmukeys, mc', heq, hmc', hv, hth, hk', hn', hinv', hagree'⟩ :=
        step_preserves hmc hkeys hn hinv hagree hmu hmulen hstep
      rcases ih (pre ++ [u]) merged' mc' keys0 e hmc' hk' hn' hinv' hagree'
          (fun v hvm => hall v (List.mem_cons_of_mem _ hvm)) hgo' with
        ⟨he, hnk⟩ | ⟨he, hna⟩
      · left
        exact ⟨he, fun hk => hnk (fun v hvm mv hmv => hk v (List.mem_cons_of_mem _ hvm) mv hmv)⟩
      · right
        refine ⟨he, ?_⟩
        intro hagreeAll
        apply hna
        rw [append_cons_eq]
        exact hagreeAll
    | panicked =>
      rw [hstep] at hgo
      exact absurd (show (Outcome.panicked : Outcome SignedTransaction) = .err e from hgo) (by simp)
    | err e0 =>
      rw [hstep] at hgo
      have he : e0 = e := by
        have h2 : (Outcome.err e0 : Outcome SignedTransaction) = .err e := hgo
        injection h2
      obtain ⟨e1, he1, hms⟩ :=
        mergeStep_err hmc hmu (show mu.subsigs.length = mc.subsigs.length by omega) hstep
      rcases mergeSubsigs_error _ _ _ hms with ⟨hk, p, hp, hviol⟩ | ⟨hk, p, hp, hviol⟩
      · left
        refine ⟨by rw [← he, he1, hk], ?_⟩
        intro hkm
        have hmukeys := hkm u (List.mem_cons_self u todo) mu hmu
        exact hviol (keys_pointwise (hmukeys.trans hkeys.symm) p hp)
      · right
        refine ⟨by rw [← he, he1, hk], ?_⟩
        intro hagreeAll
        obtain ⟨i, ha, hb, h1, h2⟩ := mem_zip_getElem hp
        have hi : i < keys0.length := by omega
        obtain ⟨hv1, hv2, hv3⟩ := hviol
        rw [h1, ← slotOf_eq_getElem ha] at hv1
        rw [h2, ← slotOf_eq_getElem hb] at hv2
        rw [h1, h2, ← slotOf_eq_getElem ha, ← slotOf_eq_getElem hb] at hv3
        cases hA : slotOf mc i with
        | none => exact hv1 hA
        | some z =>
          cases hB : slotOf mu i with
          | none => exact hv2 hB
          | some y =>
            have hz : z ∈ slotSigs pre i := List.mem_of_mem_head?
              (show z ∈ (slotSigs pre i).head? by rw [← hinv i hi, hA]; rfl)
            have hz' : z ∈ slotSigs (pre ++ u :: todo) i := by
              rw [slotSigs_append]
              exact List.mem_append_left _ hz
            have hy : y ∈ slotSigs [u] i := slotSigs_singleton_mem hmu hB
            have hy' : y ∈ slotSigs (pre ++ u :: todo) i := by
              rw [slotSigs_append]
              refine List.mem_append_right _ ?_
              rw [slotSigs_cons]
              rw [slotSigs_cons] at hy
              simp only [slotSigs, List.filterMap_nil, List.append_nil] at hy
              exact List.mem_append_left _ hy
            have hzy := hagreeAll i hi z hz' y hy'
            rw [hA, hB] at hv3
            exact hv3 (by rw [hzy])

lemma mergeGo_ok_counts (todo : List SignedTransaction) :
    ∀ (merged : SignedTransaction) (mm : MultisigSignature) (st : SignedTransaction),
      merged.multisig = some mm →
      mergeGo merged todo = .ok st →
      ∀ u ∈ todo, ∀ mu, u.multisig = some mu →
        mu.subsigs.length = mm.subsigs.length := by
  induction todo with
  | nil =>
    intro merged mm st hmc hgo u hu
    exact absurd hu (List.not_mem_nil u)
  | cons u todo ih =>
    intro merged mm st hmc hgo v hv mv hmv
    rw [mergeGo] at hgo
    cases hstep : mergeStep merged u with
    | err e =>
      rw [hstep] at hgo
      exact absurd (show (Outcome.err e : Outcome SignedTransaction) = .ok st from hgo) (by simp)
    | panicked =>
      rw [hstep] at hgo
      exact absurd (show (Outcome.panicked : Outcome SignedTransaction) = .ok st from hgo) (by simp)
    | ok merged' =>
      rw [hstep] at hgo
      have hgo' : mergeGo merged' todo = .ok st := hgo
      obtain ⟨mm0, tm, hmm0, htm, htmlen, _, _, _, _, mm', hmm', _, _, _, hlenpres, _⟩ :=
        mergeStep_ok_shape hstep
      have hmm0e : mm0 = mm := by
        rw [hmc] at hmm0
        exact (Option.some_injective _ hmm0).symm
      rcases List.mem_cons.mp hv with rfl | hv'
      · rw [hmv] at htm
        have : tm = mv := Option.some_injective _ htm.symm
        rw [← this, htmlen, hmm0e]
      · have := ih merged' mm' st hmm' hgo' v hv' mv hmv
        rw [this, hlenpres, hmm0e]

lemma merge_eq_go (t0 : SignedTransaction) (rest : List SignedTransaction)
    (hlen : 2 ≤ (t0 :: rest).length) :
    merge_multisig_transactions (t0 :: rest) = mergeGo t0 (t0 :: rest) := by
  rw [merge_multisig_transactions]
  rw [if_neg (show ¬ (t0 :: rest).length < 2 by omega)]

lemma merge_peel {t0 : SignedTransaction} {m0 : MultisigSignature}
    (rest : List SignedTransaction) (hm0 : t0.multisig = some m0)
    (hlen : 2 ≤ (t0 :: rest).length) :
    merge_multisig_transactions (t0 :: rest) = mergeGo t0 rest := by
  rw [merge_eq_go t0 rest hlen, mergeGo, mergeStep_self hm0]

lemma init_slot_inv {t0 : SignedTransaction} {m0 : MultisigSignature}
    (hm0 : t0.multisig = some m0) (i : Nat) :
    slotOf m0 i = (slotSigs [t0] i).head? :=
  (slotSigs_singleton_head t0 hm0 i).symm

lemma init_agree {t0 : SignedTransaction} {m0 : MultisigSignature}
    (hm0 : t0.multisig = some m0) (n : Nat) : slotsAgree [t0] n := by
  intro i hi s hs s' hs'
  have h1 := mem_slotSigs_singleton hm0 hs
  have h2 := mem_slotSigs_singleton hm0 hs'
  rw [h1] at h2
  exact Option.some_injective _ h2

lemma keys_length {m0 : MultisigSignature} : (msigKeys m0).length = m0.subsigs.length :=
  List.length_map _ _

/-- C1: for at least two inputs, all carrying multisigs with equal subsig
counts, the merge walks the slots pairwise in the shared member order: it can
only return `ok` or one of the two slot errors; it succeeds exactly when every
input's member-key list equals the first input's and all populated signatures
at each slot agree; on success the result keeps every non-multisig field and
the multisig version/threshold of the first input, its member keys in order,
and each result slot holds the union of the populated slots (the first — and
by agreement only — populated signature at that slot, or empty). On failure
the error is `InvalidPublicKeyInMultisig` only when some key list deviates and
`MismatchingSignatures` only when two populated slot signatures differ. -/
theorem merge_multisig_characterization (ts : List SignedTransaction)
    (t0 : SignedTransaction) (rest : List SignedTransaction) (m0 : MultisigSignature)
    (hts : ts = t0 :: rest) (hlen : 2 ≤ ts.length)
    (hm0 : t0.multisig = some m0)
    (hall : ∀ u ∈ ts, ∃ mu, u.multisig = some mu ∧
      mu.subsigs.length = m0.subsigs.length) :
    (∀ st, merge_multisig_transactions ts = .ok st →
      st.transaction = t0.transaction ∧ st.sig = t0.sig ∧ st.logicsig = t0.logicsig ∧
      st.transaction_id = t0.transaction_id ∧
      ∃ mr, st.multisig = some mr ∧ mr.version = m0.version ∧
        mr.threshold = m0.threshold ∧ msigKeys mr = msigKeys m0 ∧
        mr.subsigs.length = m0.subsigs.length ∧
        (∀ i, i < m0.subsigs.length → slotOf mr i = (slotSigs ts i).head? ∧
          ∀ s ∈ slotSigs ts i, slotOf mr i = some s)) ∧
    (keysMatchAll ts (msigKeys m0) ∧ slotsAgree ts m0.subsigs.length →
      ∃ st, merge_multisig_transactions ts = .ok st) ∧
    (∀ st, merge_multisig_transactions ts = .ok st →
      keysMatchAll ts (msigKeys m0) ∧ slotsAgree ts m0.subsigs.length) ∧
    (∀ e, merge_multisig_transactions ts = .err e →
      (e = .api .InvalidPublicKeyInMultisig ∧ ¬ keysMatchAll ts (msigKeys m0)) ∨
      (e = .api .MismatchingSignatures ∧ ¬ slotsAgree ts m0.subsigs.length)) ∧
    merge_multisig_transactions ts ≠ .panicked := by
  subst hts
  have hkl : (msigKeys m0).length = m0.subsigs.length := keys_length
  have hpeel := merge_peel rest hm0 hlen
  have hkeys : msigKeys m0 = msigKeys m0 := rfl
  have hn : m0.subsigs.length = (msigKeys m0).length := hkl.symm
  have hinv : ∀ i, i < (msigKeys m0).length → slotOf m0 i = (slotSigs [t0] i).head? :=
    fun i _ => init_slot_inv hm0 i
  have hagree1 : slotsAgree [t0] (msigKeys m0).length := init_agree hm0 _
  have hall' : ∀ u ∈ rest, ∃ mu, u.multisig = some mu ∧
      mu.subsigs.length = (msigKeys m0).length := by
    intro u hu
    obtain ⟨mu, h1, h2⟩ := hall u (List.mem_cons_of_mem _ hu)
    exact ⟨mu, h1, by omega⟩
  have hcons_eq : ([t0] ++ rest : List SignedTransaction) = t0 :: rest := rfl
  have kmAll_of_rest : keysMatchAll rest (msigKeys m0) →
      keysMatchAll (t0 :: rest) (msigKeys m0) := by
    intro h u hu mu hmu
    rcases List.mem_cons.mp hu with rfl | hu'
    · rw [hmu] at hm0
      have : mu = m0 := Option.some_injective _ hm0
      rw [this]
    · exact h u hu' mu hmu
  have kmRest_of_all : keysMatchAll (t0 :: rest) (msigKeys m0) →
      keysMatchAll rest (msigKeys m0) :=
    fun h u hu mu hmu => h u (List.mem_cons_of_mem _ hu) mu hmu
  refine ⟨?_, ?_, ?_, ?_, ?_⟩
  · intro st hok
    rw [hpeel] at hok
    obtain ⟨hkm, hagreeAll⟩ :=
      mergeGo_ok_then rest [t0] t0 m0 (msigKeys m0) st hm0 hkeys hn hinv hagree1 hall' hok
    obtain ⟨mcf, hgo, hv, hth, hk, hnlen, hslots⟩ :=
      mergeGo_ok_of rest [t0] t0 m0 (msigKeys m0) hm0 hkeys hn hinv hagreeAll hall' hkm
    rw [hok] at hgo
    injection hgo with hst
    subst hst
    refine ⟨rfl, rfl, rfl, rfl, mcf, rfl, hv, hth, hk, by omega, ?_⟩
    intro i hi
    have hi' : i < (msigKeys m0).length := by omega
    have hslot := hslots i hi'
    refine ⟨hslot, ?_⟩
    intro s hs
    rw [hslot]
    cases hh : (slotSigs ([t0] ++ rest) i).head? with
    | none =>
      rw [List.head?_eq_none_iff] at hh
      have hs' : s ∈ slotSigs ([t0] ++ rest) i := hs
      rw [hh] at hs'
      exact absurd hs' (List.not_mem_nil s)
    | some s0 =>
      have hs0 : s0 ∈ slotSigs ([t0] ++ rest) i :=
        List.mem_of_mem_head? (show s0 ∈ (slotSigs ([t0] ++ rest) i).head? by rw [hh]; rfl)
      have : s0 = s := hagreeAll i hi' s0 hs0 s hs
      rw [this]
  · rintro ⟨hkm, hagree⟩
    have hagree' : slotsAgree ([t0] ++ rest) (msigKeys m0).length := by
      intro i hi s hs s' hs'
      exact hagree i (by omega) s hs s' hs'
    obtain ⟨mcf, hgo, _⟩ :=
      mergeGo_ok_of rest [t0] t0 m0 (msigKeys m0) hm0 hkeys hn hinv hagree' hall'
        (kmRest_of_all hkm)
    exact ⟨withMsig t0 mcf, by rw [hpeel]; exact hgo⟩
  · intro st hok
    rw [hpeel] at hok
    obtain ⟨hkm, hagreeAll⟩ :=
      mergeGo_ok_then rest [t0] t0 m0 (msigKeys m0) st hm0 hkeys hn hinv hagree1 hall' hok
    refine ⟨kmAll_of_rest hkm, ?_⟩
    intro i hi s hs s' hs'
    exact hagreeAll i (by omega) s hs s' hs'
  · intro e herr
    rw [hpeel] at herr
    rcases mergeGo_err rest [t0] t0 m0 (msigKeys m0) e hm0 hkeys hn hinv hagree1 hall' herr with
      ⟨he, hnk⟩ | ⟨he, hna⟩
    · left
      exact ⟨he, fun hk => hnk (kmRest_of_all hk)⟩
    · right
      refine ⟨he, ?_⟩
      intro hag
      apply hna
      intro i hi s hs s' hs'
      exact hag i (by omega) s hs s' hs'
  · rw [hpeel]
    refine mergeGo_no_panic rest t0 m0 hm0 ?_
    intro u hu
    obtain ⟨mu, h1, _⟩ := hall u (List.mem_cons_of_mem _ hu)
    exact ⟨mu, h1⟩

lemma combineSubsig_absorb (m s : MultisigSubsig) :
    combineSubsig (combineSubsig m s) m = combineSubsig m s := by
  cases m with
  | mk k sg => cases sg <;> cases hss : s.sig <;> simp [combineSubsig, Option.or, hss]

lemma combine_absorb (ms : List MultisigSubsig) :
    ∀ ss : List MultisigSubsig,
      combineSubsigLists (combineSubsigLists ms ss) ms = combineSubsigLists ms ss := by
  induction ms with
  | nil => intro ss; cases ss <;> rfl
  | cons m ms ih =>
    intro ss
    cases ss with
    | nil => rfl
    | cons s ss =>
      rw [combineSubsigLists_cons]
      rw [combineSubsigLists_cons]
      rw [combineSubsig_absorb, ih ss]

lemma combineSubsigLists_get {ms ss : List MultisigSubsig} {i : Nat}
    (ha : i < ms.length) (hb : i < ss.length)
    (hc : i < (combineSubsigLists ms ss).length) :
    (combineSubsigLists ms ss).get ⟨i, hc⟩ =
      combineSubsig (ms.get ⟨i, ha⟩) (ss.get ⟨i, hb⟩) := by
  simp [combineSubsigLists, List.get_eq_getElem, List.getElem_zipWith]

lemma sign_multisig_ok_msig {a : Account} {ma : MultisigAddress} {t : Transaction}
    {ft : SignedTransaction} (h : a.sign_multisig_transaction ma t = .ok ft) :
    ∃ m, ft.multisig = some m := by
  simp only [Account.sign_multisig_transaction] at h
  by_cases h1 : ma.address ≠ t.sender
  · rw [if_pos h1] at h
    exact absurd h (by simp)
  · rw [if_neg h1] at h
    by_cases h2 : a.publicKey ∉ ma.public_keys
    · rw [if_pos h2] at h
      exact absurd h (by simp)
    · rw [if_neg h2] at h
      cases hsig : a.sign_transaction t with
      | ok st' =>
        rw [hsig] at h
        simp only [Outcome.ok.injEq] at h
        rw [← h]
        exact ⟨_, rfl⟩
      | err e =>
        rw [hsig] at h
        exact absurd h (by simp)
      | panicked =>
        rw [hsig] at h
        exact absurd h (by simp)

lemma msig_subsigs_map_key (keys : List Ed25519PublicKey) (myk : Ed25519PublicKey)
    (s0 : Signature) :
    ((keys.map (fun key =>
      if key = myk then (⟨key, some s0⟩ : MultisigSubsig) else ⟨key, none⟩)).map
        (fun s => s.key)) = keys := by
  induction keys with
  | nil => rfl
  | cons k ks ih => by_cases hk : k = myk <;> simp [hk, ih]

lemma msig_subsigs_slots (keys : List Ed25519PublicKey) (myk : Ed25519PublicKey)
    (s0 : Signature) :
    ∀ s ∈ keys.map (fun key =>
      if key = myk then (⟨key, some s0⟩ : MultisigSubsig) else ⟨key, none⟩),
      (s.key = myk → s.sig = some s0) ∧ (s.key ≠ myk → s.sig = none) := by
  intro s hs
  obtain ⟨k, hk, rfl⟩ := List.mem_map.mp hs
  by_cases h : k = myk <;> simp [h]


/-! ## Claim theorems -/

/-- C4: merging fewer than two signed transactions (the empty list or a
singleton) fails with `InsufficientTransactions` and produces no result. -/
theorem merge_insufficient (ts : List SignedTransaction) (h : ts.length < 2) :
    merge_multisig_transactions ts = .err (.api .InsufficientTransactions) := by
  rw [merge_multisig_transactions.eq_def, if_pos h]

/-- C4 witness: the empty list and a singleton both fail as claimed. -/
theorem merge_insufficient_witness :
    merge_multisig_transactions [] = .err (.api .InsufficientTransactions) ∧
    merge_multisig_transactions [cexShort] = .err (.api .InsufficientTransactions) :=
  ⟨merge_insufficient [] (by decide), merge_insufficient [cexShort] (by decide)⟩

/-- C9: whenever the policy-derived address differs from the transaction's
declared sender, `sign_multisig_transaction` fails with
`InvalidSenderInMultisig`; no membership condition is needed, so the sender
check precedes the membership check and (the function being pure) no
signature is produced. -/
theorem sign_multisig_sender_check (a : Account) (ma : MultisigAddress)
    (t : Transaction) (h : ma.address ≠ t.sender) :
    a.sign_multisig_transaction ma t = .err (.api .InvalidSenderInMultisig) := by
  rw [Account.sign_multisig_transaction, if_pos h]

/-- C9 witness: a concrete policy whose derived address differs from the
sender is rejected. -/
theorem sign_multisig_sender_check_witness :
    sampleAcct.sign_multisig_transaction sampleMa sampleTxn =
      .err (.api .InvalidSenderInMultisig) :=
  sign_multisig_sender_check sampleAcct sampleMa sampleTxn
    (by set_option maxRecDepth 100000 in decide)

/-- C7: `sign_program` equals the raw signature over the ASCII bytes of
`"Program"` concatenated directly with the payload, and that tag is exactly
the byte string `[80, 114, 111, 103, 114, 97, 109]`. -/
theorem sign_program_domain_sep (a : Account) (p : List Nat) :
    a.sign_program p = a.sign ([80, 114, 111, 103, 114, 97, 109] ++ p) ∧
    "Program".toList.map Char.toNat = [80, 114, 111, 103, 114, 97, 109] := by
  have h : "Program".toList.map Char.toNat = [80, 114, 111, 103, 114, 97, 109] := by decide
  exact ⟨by rw [Account.sign_program, h], h⟩

/-- C5: the merge takes the first transaction as the accumulator; a step whose
incoming subsig count differs from the accumulator's returns
`InvalidNumberOfSubsignatures`; every successful merge forces all counts to
equal the first transaction's, so any count mismatch prevents success. -/
theorem merge_count_check (ts : List SignedTransaction) (t0 : SignedTransaction)
    (rest : List SignedTransaction) (m0 : MultisigSignature)
    (hts : ts = t0 :: rest) (hlen : 2 ≤ ts.length) (hm0 : t0.multisig = some m0)
    (hall : ∀ u ∈ ts, u.multisig.isSome) :
    merge_multisig_transactions ts = mergeGo t0 ts ∧
    (∀ merged u mm tm, merged.multisig = some mm → u.multisig = some tm →
      mm.subsigs.length ≠ tm.subsigs.length →
      mergeStep merged u = .err (.api .InvalidNumberOfSubsignatures)) ∧
    (∀ st, merge_multisig_transactions ts = .ok st →
      ∀ u ∈ ts, ∀ mu, u.multisig = some mu →
        mu.subsigs.length = m0.subsigs.length) ∧
    ((∃ u ∈ ts, ∃ mu, u.multisig = some mu ∧
        mu.subsigs.length ≠ m0.subsigs.length) →
      ∀ st, merge_multisig_transactions ts ≠ .ok st) := by
  subst hts
  refine ⟨merge_eq_go t0 rest hlen, ?_, ?_, ?_⟩
  · intro merged u mm tm h1 h2 h3
    exact mergeStep_count_mismatch h1 h2 h3
  · intro st hok u hu mu hmu
    rw [merge_eq_go t0 rest hlen] at hok
    exact mergeGo_ok_counts (t0 :: rest) t0 m0 st hm0 hok u hu mu hmu
  · rintro ⟨u, hu, mu, hmu, hne⟩ st hok
    rw [merge_eq_go t0 rest hlen] at hok
    exact hne (mergeGo_ok_counts (t0 :: rest) t0 m0 st hm0 hok u hu mu hmu)

/-- C5 witness: a two-input merge with counts 1 and 2 runs through the
accumulator loop and its step rejects the count mismatch. -/
theorem merge_count_check_witness :
    merge_multisig_transactions [cexShort, cexLong] = mergeGo cexShort [cexShort, cexLong] ∧
    mergeStep cexShort cexLong = .err (.api .InvalidNumberOfSubsignatures) := by
  have h := merge_count_check [cexShort, cexLong] cexShort [cexLong] sampleMsig1
    rfl (by decide) rfl (by decide)
  exact ⟨h.1, h.2.1 cexShort cexLong sampleMsig1 sampleMsig2 rfl rfl (by decide)⟩

/-- C2: two single-signer partial transactions over the same 2-of-2 policy and
the same transaction — one filling slot 0, the other slot 1 — merge to the
same result in either order. -/
theorem merge_two_party_comm (A B : SignedTransaction) (k0 k1 : Ed25519PublicKey)
    (sa sb : Signature) (v th : Nat)
    (hA : A.multisig = some ⟨v, th, [⟨k0, some sa⟩, ⟨k1, none⟩]⟩)
    (hB : B.multisig = some ⟨v, th, [⟨k0, none⟩, ⟨k1, some sb⟩]⟩)
    (hth : th = 2)
    (ht : A.transaction = B.transaction) (hs : A.sig = B.sig)
    (hl : A.logicsig = B.logicsig) (hid : A.transaction_id = B.transaction_id) :
    merge_multisig_transactions [A, B] = merge_multisig_transactions [B, A] := by
  cases A with
  | mk atx asg als amsig atid =>
    cases B with
    | mk btx bsg bls bmsig btid =>
      simp only at hA hB ht hs hl hid
      subst hA
      subst hB
      subst ht
      subst hs
      subst hl
      subst hid
      simp [merge_multisig_transactions, mergeGo, mergeStep, mergeSubsigs]

/-- C2 witness: concrete 2-of-2 partials merge the same way in both orders. -/
theorem merge_two_party_comm_witness :
    merge_multisig_transactions [wtA, wtB] = merge_multisig_transactions [wtB, wtA] :=
  merge_two_party_comm wtA wtB sampleKeyA sampleKeyB sampleSigA sampleSigB 1 2
    rfl rfl rfl rfl rfl rfl rfl

/-- C3: when two partial transactions over the same policy have pairwise slots
that agree or are empty on one side, their merge succeeds, and re-merging the
result with the first input returns the result unchanged. -/
theorem merge_idempotent (A B : SignedTransaction) (am bm : MultisigSignature)
    (hA : A.multisig = some am) (hB : B.multisig = some bm)
    (hlen : bm.subsigs.length = am.subsigs.length)
    (hkeys : msigKeys bm = msigKeys am)
    (hver : bm.version = am.version) (hthr : bm.threshold = am.threshold)
    (hcompat : ∀ p ∈ am.subsigs.zip bm.subsigs,
      p.1.sig = none ∨ p.2.sig = none ∨ p.1.sig = p.2.sig) :
    ∃ M, merge_multisig_transactions [A, B] = .ok M ∧
      merge_multisig_transactions [M, A] = .ok M := by
  have hstep1 : mergeStep A B = .ok (stepResult A am bm) :=
    (mergeStep_ok_iff hA hB hlen _).mpr
      ⟨fun p hp => ⟨keys_pointwise hkeys p hp, hcompat p hp⟩, rfl⟩
  refine ⟨stepResult A am bm, ?_, ?_⟩
  · rw [merge_peel [B] hA (by simp), mergeGo, hstep1]
    rfl
  · have hMm : (stepResult A am bm).multisig =
        some { am with subsigs := combineSubsigLists am.subsigs bm.subsigs } := rfl
    have hlen2 : am.subsigs.length =
        ({ am with subsigs := combineSubsigLists am.subsigs bm.subsigs } :
          MultisigSignature).subsigs.length :=
      (combineSubsigLists_length hlen).symm
    have hconds2 : ∀ p ∈ (combineSubsigLists am.subsigs bm.subsigs).zip am.subsigs,
        p.2.key = p.1.key ∧
        (p.1.sig = none ∨ p.2.sig = none ∨ p.1.sig = p.2.sig) := by
      intro p hp
      constructor
      · refine keys_pointwise ?_ p hp
        exact (combineSubsigLists_keys hlen).symm
      · obtain ⟨i, ha, hb, h1, h2⟩ := mem_zip_getElem hp
        have hb' : i < bm.subsigs.length := by
          have hc := combineSubsigLists_length hlen
          omega
        rw [h1, h2, combineSubsigLists_get hb hb' ha]
        cases hcase : (am.subsigs.get ⟨i, hb⟩).sig with
        | none => exact Or.inr (Or.inl rfl)
        | some x =>
          refine Or.inr (Or.inr ?_)
          have hcase' : am.subsigs[i].sig = some x := hcase
          simp [combineSubsig, Option.or, hcase']
    have habs : stepResult (stepResult A am bm)
        { am with subsigs := combineSubsigLists am.subsigs bm.subsigs } am =
        stepResult A am bm := by
      have hcc : combineSubsigLists (combineSubsigLists am.subsigs bm.subsigs) am.subsigs =
          combineSubsigLists am.subsigs bm.subsigs := combine_absorb am.subsigs bm.subsigs
      simp only [stepResult]
      rw [hcc]
    have hstep2 : mergeStep (stepResult A am bm) A = .ok (stepResult A am bm) :=
      (mergeStep_ok_iff hMm hA hlen2 _).mpr ⟨hconds2, habs.symm⟩
    rw [merge_peel [A] hMm (by simp), mergeGo, hstep2]
    rfl

/-- C3 witness: a concrete merge result re-merged with its first input is
unchanged. -/
theorem merge_idempotent_witness :
    merge_multisig_transactions [wtA, wtB] = .ok wtMerged ∧
    merge_multisig_transactions [wtMerged, wtA] = .ok wtMerged := by
  obtain ⟨M, h1, h2⟩ := merge_idempotent wtA wtB sampleMsig2
    ⟨1, 2, [⟨sampleKeyA, none⟩, ⟨sampleKeyB, some sampleSigB⟩]⟩
    rfl rfl (by decide) (by decide) (by decide) (by decide) (by decide)
  have hM : M = wtMerged := by
    have hcomp : merge_multisig_transactions [wtA, wtB] = .ok wtMerged := by decide
    rw [h1] at hcomp
    injection hcomp
  rw [hM] at h1 h2
  exact ⟨h1, h2⟩

/-- C6: when the canonical encoding succeeds, `sign_transaction` signs exactly
those canonical bytes and sets the transaction id to the base-32 (no padding)
encoding of the truncated 512-bit digest of the same bytes; all other
authorization fields stay empty. -/
theorem sign_transaction_spec (a : Account) (t : Transaction) (bytes : List Nat)
    (h : t.bytes_to_sign = .ok bytes) :
    a.sign_transaction t =
      .ok ⟨t, some (a.sign bytes), none, none, base32Nopad (sha512Trunc256Digest bytes)⟩ := by
  simp only [Account.sign_transaction, h]

/-- C6 witness: a concrete transaction is signed over its canonical bytes with
the id derived from the same bytes. -/
theorem sign_transaction_spec_witness :
    sampleAcct.sign_transaction sampleTxn =
      .ok ⟨sampleTxn, some (sampleAcct.sign [1, 2, 3]), none, none,
        base32Nopad (sha512Trunc256Digest [1, 2, 3])⟩ :=
  sign_transaction_spec sampleAcct sampleTxn [1, 2, 3] rfl

/-- C8: `sign_logic_msig` rejects non-members with
`InvalidSecretKeyInMultisig`; for a member it returns the logic signature with
a fresh multisig whose subsigs carry exactly the policy's member keys in
order, the caller's slots populated with the program signature, all other
slots empty, and the policy's version and threshold. -/
theorem sign_logic_msig_spec (a : Account) (lsig : LogicSignature)
    (ma : MultisigAddress) :
    (a.publicKey ∉ ma.public_keys →
      a.sign_logic_msig lsig ma = .err (.api .InvalidSecretKeyInMultisig)) ∧
    (a.publicKey ∈ ma.public_keys →
      ∃ out msig, a.sign_logic_msig lsig ma = .ok out ∧
        out.logic = lsig.logic ∧ out.sig = lsig.sig ∧ out.msig = some msig ∧
        msig.version = ma.version ∧ msig.threshold = ma.threshold ∧
        msig.subsigs.map (fun s => s.key) = ma.public_keys ∧
        ∀ s ∈ msig.subsigs,
          (s.key = a.publicKey → s.sig = some (a.sign_program lsig.logic)) ∧
          (s.key ≠ a.publicKey → s.sig = none)) := by
  constructor
  · intro h
    simp only [Account.sign_logic_msig, if_pos h]
  · intro h
    have hnn : ¬ a.publicKey ∉ ma.public_keys := not_not_intro h
    simp only [Account.sign_logic_msig, if_neg hnn]
    refine ⟨_, ⟨ma.version, ma.threshold, ma.public_keys.map (fun key =>
        if key = a.publicKey then ⟨key, some (a.sign_program lsig.logic)⟩
        else ⟨key, none⟩)⟩, rfl, rfl, rfl, rfl, rfl, rfl, ?_, ?_⟩
    · exact msig_subsigs_map_key ma.public_keys a.publicKey (a.sign_program lsig.logic)
    · exact msig_subsigs_slots ma.public_keys a.publicKey (a.sign_program lsig.logic)

/-- C8 witness: a non-member is rejected and a member produces the expected
one-slot multisig. -/
theorem sign_logic_msig_spec_witness :
    sampleAcct.sign_logic_msig sampleLsig sampleMaOther =
      .err (.api .InvalidSecretKeyInMultisig) ∧
    sampleAcct.sign_logic_msig sampleLsig sampleMa =
      .ok ⟨[1, 2], none,
        some ⟨1, 1, [⟨sampleAcct.publicKey, some (sampleAcct.sign_program [1, 2])⟩]⟩⟩ := by
  constructor
  · exact (sign_logic_msig_spec sampleAcct sampleLsig sampleMaOther).1
      (by set_option maxRecDepth 100000 in decide)
  · obtain ⟨out, msig, hok, _⟩ := (sign_logic_msig_spec sampleAcct sampleLsig sampleMa).2
      (by set_option maxRecDepth 100000 in decide)
    set_option maxRecDepth 100000 in decide

/-- C10 counterexample: a merge of at least two transactions in which some
input's multisig is absent does not always panic — when an earlier validation
error fires first (here a subsig-count mismatch), the merge returns that
documented error instead. -/
theorem merge_none_counterexample :
    2 ≤ ([cexShort, cexLong, cexNone] : List SignedTransaction).length ∧
    cexNone ∈ ([cexShort, cexLong, cexNone] : List SignedTransaction) ∧
    cexNone.multisig = none ∧
    merge_multisig_transactions [cexShort, cexLong, cexNone] =
      .err (.api .InvalidNumberOfSubsignatures) ∧
    merge_multisig_transactions [cexShort, cexLong, cexNone] ≠ .panicked := by
  refine ⟨by decide, by decide, rfl, by decide, by decide⟩

/-- C10 (amended): the merge panics via the unwrap when the loop reaches an
absent multisig before any validation error: whenever the first transaction's
multisig is `None`, and for two inputs whose first carries a multisig and
whose second does not; consequently `append_multisig_transaction` panics
whenever its internal signing step succeeds and the existing transaction
carries no multisig. -/
theorem merge_none_panics :
    (∀ (t0 : SignedTransaction) (rest : List SignedTransaction),
      2 ≤ (t0 :: rest).length → t0.multisig = none →
      merge_multisig_transactions (t0 :: rest) = .panicked) ∧
    (∀ (t0 t1 : SignedTransaction) (mm : MultisigSignature),
      t0.multisig = some mm → t1.multisig = none →
      merge_multisig_transactions [t0, t1] = .panicked) ∧
    (∀ (a : Account) (ma : MultisigAddress) (st ft : SignedTransaction),
      a.sign_multisig_transaction ma st.transaction = .ok ft →
      st.multisig = none →
      a.append_multisig_transaction ma st = .panicked) := by
  have h2 : ∀ (t0 t1 : SignedTransaction) (mm : MultisigSignature),
      t0.multisig = some mm → t1.multisig = none →
      merge_multisig_transactions [t0, t1] = .panicked := by
    intro t0 t1 mm hm hn
    rw [merge_peel [t1] hm (by simp), mergeGo, mergeStep_of_none_right hn]
  refine ⟨?_, h2, ?_⟩
  · intro t0 rest hlen hnone
    rw [merge_eq_go t0 rest hlen, mergeGo, mergeStep_of_none_left hnone]
  · intro a ma st ft hsig hnone
    obtain ⟨m, hm⟩ := sign_multisig_ok_msig hsig
    simp only [Account.append_multisig_transaction, hsig]
    exact h2 ft st m hm hnone

/-- C10 (amended) witness: concrete panics for an absent first multisig, an
absent second multisig, and an append onto a signed transaction without a
multisig. -/
theorem merge_none_panics_witness :
    merge_multisig_transactions [cexNone, cexShort] = .panicked ∧
    merge_multisig_transactions [cexShort, cexNone] = .panicked ∧
    sampleAcct.append_multisig_transaction sampleMa sampleSt = .panicked := by
  refine ⟨merge_none_panics.1 cexNone [cexShort] (by decide) rfl,
    merge_none_panics.2.1 cexShort cexNone sampleMsig1 rfl rfl, ?_⟩
  have hok : ∃ ft, sampleAcct.sign_multisig_transaction sampleMa sampleSt.transaction =
      .ok ft := by
    set_option maxRecDepth 1000000 in exact ⟨_, rfl⟩
  obtain ⟨ft, hft⟩ := hok
  exact merge_none_panics.2.2 sampleAcct sampleMa sampleSt ft hft rfl

/-- C1 witness: two compatible 2-of-2 partials merge without panicking and
produce a merged transaction. -/
theorem merge_multisig_characterization_witness :
    merge_multisig_transactions [wtA, wtB] ≠ .panicked ∧
    (∃ st, merge_multisig_transactions [wtA, wtB] = .ok st) := by
  have hall : ∀ u ∈ ([wtA, wtB] : List SignedTransaction), ∃ mu,
      u.multisig = some mu ∧ mu.subsigs.length = sampleMsig2.subsigs.length := by
    intro u hu
    rcases List.mem_cons.mp hu with rfl | hu'
    · exact ⟨sampleMsig2, rfl, rfl⟩
    · rcases List.mem_cons.mp hu' with rfl | h0
      · exact ⟨_, rfl, rfl⟩
      · exact absurd h0 (List.not_mem_nil u)
  have h := merge_multisig_characterization [wtA, wtB] wtA [wtB] sampleMsig2
    rfl (by decide) rfl hall
  have hkm : keysMatchAll [wtA, wtB] (msigKeys sampleMsig2) := by
    intro u hu mu hmu
    rcases List.mem_cons.mp hu with rfl | hu'
    · have h' : some sampleMsig2 = some mu := hmu
      have he := Option.some_injective _ h'
      rw [← he]
    · rcases List.mem_cons.mp hu' with rfl | h0
      · have h' : some (⟨1, 2, [⟨sampleKeyA, none⟩, ⟨sampleKeyB, some sampleSigB⟩]⟩ :
            MultisigSignature) = some mu := hmu
        have he := Option.some_injective _ h'
        rw [← he]
        decide
      · exact absurd h0 (List.not_mem_nil u)
  exact ⟨h.2.2.2.2, h.2.1 ⟨hkm, by decide⟩⟩
